import Mathlib

/-!
A shallow embedding of the `minecraft-parser` crate (`src/lib.rs`): a decoder
for the Minecraft handshake packet. The buffer cursor (`&mut dyn Buf`) is
modelled as a `List Nat` of bytes; every parser takes the cursor and returns
the pair of its `Result` and the cursor as the call leaves it, mirroring the
mutable borrow in Rust. Machine integers are modelled as `Nat`/`Int` with
explicit reductions modulo `2 ^ 32` (i32) and `2 ^ 64` (usize).
-/

/-- Modelled from the Rust standard library: the payload of `str::Utf8Error`
(carried by `MinecraftParseError::InvalidStringEncoding` via `#[from]`),
recording how many leading bytes were valid and the length of the invalid
sequence (`none` when the input ends inside an incomplete character). -/
structure Utf8Error where
  valid_up_to : Nat
  error_len : Option Nat
deriving DecidableEq

/-- The error enumeration `MinecraftParseError` of `src/lib.rs`. -/
inductive MinecraftParseError where
  | InvalidVarInt
  | InvalidUShort
  | InvalidStringEncoding (e : Utf8Error)
  | StringTooShort
  | LengthNotMatch
  | NotHandshake
deriving DecidableEq

deriving instance DecidableEq for Except

/-- The `Handshake` record of `src/lib.rs`. `protocol_version` and
`next_state` are i32 values (modelled as `Int`), `port` a u16 (modelled as
`Nat`), and `address` the decoded text as a list of Unicode code points. -/
structure Handshake where
  protocol_version : Int
  address : List Nat
  port : Nat
  next_state : Int
deriving DecidableEq

/-- Reinterpret a 32-bit pattern as a two's complement signed integer:
the value an i32 holding bit pattern `n % 2 ^ 32` denotes. -/
def toI32 (n : Nat) : Int :=
  if n % 2 ^ 32 < 2 ^ 31 then ((n % 2 ^ 32 : Nat) : Int)
  else ((n % 2 ^ 32 : Nat) : Int) - 2 ^ 32

/-- The Rust cast `x as usize` applied to an i32 on a 64-bit target:
sign-extend to 64 bits and reinterpret as unsigned. -/
def usizeOfI32 (x : Int) : Nat :=
  (x % 2 ^ 64).toNat

/-- Modelled from the Rust standard library: decode one UTF-8 character at
the head of the byte list, per the byte-range table `str::from_utf8`
validates against (RFC 3629: no overlong forms, no surrogates, no code
points above U+10FFFF). Returns the code point and the number of bytes it
occupies, or the `error_len` payload of the resulting `Utf8Error` (`none`
when the input ends inside an incomplete character). -/
def utf8DecodeChar : List Nat → Except (Option Nat) (Nat × Nat)
  | [] => .error none
  | b :: rest =>
    if b < 0x80 then .ok (b, 1)
    else if 0xC2 ≤ b ∧ b ≤ 0xDF then
      match rest with
      | [] => .error none
      | b1 :: _ =>
        if 0x80 ≤ b1 ∧ b1 ≤ 0xBF then .ok ((b - 0xC0) * 0x40 + (b1 - 0x80), 2)
        else .error (some 1)
    else if 0xE0 ≤ b ∧ b ≤ 0xEF then
      match rest with
      | [] => .error none
      | b1 :: rest1 =>
        if (if b = 0xE0 then 0xA0 ≤ b1 ∧ b1 ≤ 0xBF
            else if b = 0xED then 0x80 ≤ b1 ∧ b1 ≤ 0x9F
            else 0x80 ≤ b1 ∧ b1 ≤ 0xBF) then
          match rest1 with
          | [] => .error none
          | b2 :: _ =>
            if 0x80 ≤ b2 ∧ b2 ≤ 0xBF then
              .ok ((b - 0xE0) * 0x1000 + (b1 - 0x80) * 0x40 + (b2 - 0x80), 3)
            else .error (some 2)
        else .error (some 1)
    else if 0xF0 ≤ b ∧ b ≤ 0xF4 then
      match rest with
      | [] => .error none
      | b1 :: rest1 =>
        if (if b = 0xF0 then 0x90 ≤ b1 ∧ b1 ≤ 0xBF
            else if b = 0xF4 then 0x80 ≤ b1 ∧ b1 ≤ 0x8F
            else 0x80 ≤ b1 ∧ b1 ≤ 0xBF) then
          match rest1 with
          | [] => .error none
          | b2 :: rest2 =>
            if 0x80 ≤ b2 ∧ b2 ≤ 0xBF then
              match rest2 with
              | [] => .error none
              | b3 :: _ =>
                if 0x80 ≤ b3 ∧ b3 ≤ 0xBF then
                  .ok ((b - 0xF0) * 0x40000 + (b1 - 0x80) * 0x1000 +
                        (b2 - 0x80) * 0x40 + (b3 - 0x80), 4)
                else .error (some 3)
            else .error (some 2)
        else .error (some 1)
    else .error (some 1)

/-- Modelled from the Rust standard library: the validation loop of
`str::from_utf8`, decoding characters in sequence and tracking the byte
offset for `valid_up_to`. The first argument is recursion fuel; every
character consumes at least one byte, so fuel equal to the list length
(as supplied by `utf8Decode`) makes the `0, _ :: _` branch unreachable. -/
def utf8Loop : Nat → List Nat → Nat → Except Utf8Error (List Nat)
  | _, [], _ => .ok []
  | 0, _ :: _, pos => .error ⟨pos, some 1⟩
  | fuel + 1, b :: rest, pos =>
    match utf8DecodeChar (b :: rest) with
    | .error el => .error ⟨pos, el⟩
    | .ok (cp, w) =>
      match utf8Loop fuel (List.drop (w - 1) rest) (pos + w) with
      | .ok cps => .ok (cp :: cps)
      | .error e => .error e

/-- Modelled from the Rust standard library: `str::from_utf8` over a byte
slice, starting at offset 0. -/
def utf8Decode (l : List Nat) : Except Utf8Error (List Nat) :=
  utf8Loop l.length l 0

/-- The function `parse_ushort` of `src/lib.rs`: if fewer than 2 bytes
remain, fail with `InvalidUShort` (cursor untouched); otherwise `get_u16`
reads the first two bytes big-endian and advances the cursor by 2. -/
def parse_ushort (buf : List Nat) :
    Except MinecraftParseError Nat × List Nat :=
  if buf.length < 2 then (.error .InvalidUShort, buf)
  else (.ok (buf.getD 0 0 * 256 + buf.getD 1 0), buf.drop 2)

/-- The loop of `parse_varint` in `src/lib.rs`, entered with `has_more =
true`: state `v` (the i32 accumulator's 32-bit pattern), `bit_place`, and
the byte counter `i`. Each iteration first checks `i == VARINT_MAX_BYTES
|| buf.remaining() < 1` (failing with `InvalidVarInt`), then reads a byte,
ORs its low 7 bits shifted by `bit_place` into `v` (the i32 shift discards
bits past bit 31, hence the reduction modulo `2 ^ 32`), and continues while
the byte's high bit is set. -/
def varintGo : Nat → Nat → Nat → List Nat →
    Except MinecraftParseError Int × List Nat
  | _, _, _, [] => (.error .InvalidVarInt, [])
  | v, bit_place, i, byte :: rest =>
    if i = 5 then (.error .InvalidVarInt, byte :: rest)
    else if byte &&& 0x80 ≠ 0 then
      varintGo ((v ||| (byte &&& 0x7F) <<< bit_place) % 2 ^ 32)
        (bit_place + 7) (i + 1) rest
    else (.ok (toI32 ((v ||| (byte &&& 0x7F) <<< bit_place) % 2 ^ 32)), rest)

/-- The function `parse_varint` of `src/lib.rs`: run the loop from
`v = 0`, `bit_place = 0`, `i = 0`. -/
def parse_varint (buf : List Nat) :
    Except MinecraftParseError Int × List Nat :=
  varintGo 0 0 0 buf

/-- The function `parse_string_n` of `src/lib.rs`: decode a VarInt length
prefix (propagating its error), cast it with `as usize`, fail with
`StringTooShort` when fewer bytes remain, otherwise `copy_to_bytes` that
many bytes and validate them as UTF-8, converting a `Utf8Error` into
`InvalidStringEncoding` via the `#[from]` conversion. -/
def parse_string_n (buf : List Nat) :
    Except MinecraftParseError (List Nat) × List Nat :=
  match parse_varint buf with
  | (.error e, c) => (.error e, c)
  | (.ok len, buf2) =>
    if buf2.length < usizeOfI32 len then (.error .StringTooShort, buf2)
    else
      match utf8Decode (buf2.take (usizeOfI32 len)) with
      | .error e => (.error (.InvalidStringEncoding e), buf2.drop (usizeOfI32 len))
      | .ok s => (.ok s, buf2.drop (usizeOfI32 len))

/-- The function `parse_handshake` of `src/lib.rs`: outer length VarInt,
strict `buf.remaining() != len as usize` framing check, packet id VarInt
(must be 0), then protocol version, address, port, next state, in order,
short-circuiting on the first error. -/
def parse_handshake (buf : List Nat) :
    Except MinecraftParseError Handshake × List Nat :=
  match parse_varint buf with
  | (.error e, c) => (.error e, c)
  | (.ok len, b1) =>
    if b1.length ≠ usizeOfI32 len then (.error .LengthNotMatch, b1)
    else
      match parse_varint b1 with
      | (.error e, c) => (.error e, c)
      | (.ok id, b2) =>
        if id ≠ 0 then (.error .NotHandshake, b2)
        else
          match parse_varint b2 with
          | (.error e, c) => (.error e, c)
          | (.ok version, b3) =>
            match parse_string_n b3 with
            | (.error e, c) => (.error e, c)
            | (.ok address, b4) =>
              match parse_ushort b4 with
              | (.error e, c) => (.error e, c)
              | (.ok port, b5) =>
                match parse_varint b5 with
                | (.error e, c) => (.error e, c)
                | (.ok next_state, b6) =>
                  (.ok ⟨version, address, port, next_state⟩, b6)

/-- Big OR of `g 0 ||| g 1 ||| ... ||| g (n-1)`, the shape in which the
spec describes VarInt reconstruction. -/
def bigOr (g : Nat → Nat) (n : Nat) : Nat :=
  (List.range n).foldl (fun a j => a ||| g j) 0

/-- The spec's reconstruction formula for a VarInt whose final (first
high-bit-clear) byte sits at index `k`: OR of each consumed byte's low
7 bits shifted left by 7 times its index. -/
def varintSpecBits (buf : List Nat) (k : Nat) : Nat :=
  bigOr (fun j => (buf.getD j 0 &&& 0x7F) <<< (7 * j)) (k + 1)

lemma bigOr_succ (g : Nat → Nat) (n : Nat) :
    bigOr g (n + 1) = bigOr g n ||| g n := by
  simp [bigOr, List.range_succ]

lemma bigOr_one (g : Nat → Nat) : bigOr g 1 = g 0 := by
  rw [bigOr_succ]
  simp [bigOr]

lemma bigOr_congr {g g2 : Nat → Nat} (n : Nat)
    (h : ∀ j, j < n → g j = g2 j) : bigOr g n = bigOr g2 n := by
  induction n with
  | zero => rfl
  | succ n ih =>
    rw [bigOr_succ, bigOr_succ, ih fun j hj => h j (by omega), h n (by omega)]

lemma bigOr_succ_head (g : Nat → Nat) (n : Nat) :
    bigOr g (n + 1) = g 0 ||| bigOr (fun j => g (j + 1)) n := by
  induction n with
  | zero => rw [bigOr_one] ; simp [bigOr]
  | succ n ih =>
    rw [bigOr_succ, ih, Nat.lor_assoc, ← bigOr_succ]

lemma lor_mod_two_pow_left (a b n : Nat) :
    (a % 2 ^ n ||| b) % 2 ^ n = (a ||| b) % 2 ^ n := by
  apply Nat.eq_of_testBit_eq
  intro i
  by_cases h : i < n <;>
    simp [Nat.testBit_mod_two_pow, Nat.testBit_lor, h]

lemma toI32_mod (x : Nat) : toI32 (x % 2 ^ 32) = toI32 x := by
  have h : x % 2 ^ 32 % 2 ^ 32 = x % 2 ^ 32 := Nat.mod_mod_of_dvd x dvd_rfl
  simp [toI32, h]

lemma toI32_range (n : Nat) : -2 ^ 31 ≤ toI32 n ∧ toI32 n < 2 ^ 31 := by
  have h : n % 2 ^ 32 < 2 ^ 32 := Nat.mod_lt _ (by norm_num)
  unfold toI32
  split <;> omega

lemma usizeOfI32_nonneg {L : Int} (h0 : 0 ≤ L) (h1 : L < 2 ^ 31) :
    usizeOfI32 L = L.toNat := by
  unfold usizeOfI32
  rw [Int.emod_eq_of_lt h0 (by omega)]

lemma usizeOfI32_neg {L : Int} (h0 : -2 ^ 31 ≤ L) (h1 : L < 0) :
    2 ^ 64 - 2 ^ 31 ≤ usizeOfI32 L := by
  unfold usizeOfI32
  omega

lemma varintGo_ok : ∀ (k : Nat) (buf : List Nat) (v bp i : Nat),
    i + k < 5 → k < buf.length →
    (∀ j, j < k → buf.getD j 0 &&& 0x80 ≠ 0) →
    buf.getD k 0 &&& 0x80 = 0 →
    varintGo v bp i buf =
      (.ok (toI32 ((v |||
          bigOr (fun j => (buf.getD j 0 &&& 0x7F) <<< (bp + 7 * j)) (k + 1)) % 2 ^ 32)),
        buf.drop (k + 1))
  | 0, [], v, bp, i, h5, hlen, hset, hclr => by simp at hlen
  | 0, b :: rest, v, bp, i, h5, hlen, hset, hclr => by
    have hi : ¬ i = 5 := by omega
    have hb : ¬ (b &&& 0x80 ≠ 0) := by simpa using hclr
    show (if i = 5 then _ else if b &&& 0x80 ≠ 0 then _ else _) = _
    rw [if_neg hi, if_neg hb, bigOr_one]
    simp
  | k + 1, [], v, bp, i, h5, hlen, hset, hclr => by simp at hlen
  | k + 1, b :: rest, v, bp, i, h5, hlen, hset, hclr => by
    have hi : ¬ i = 5 := by omega
    have hb : b &&& 0x80 ≠ 0 := by
      have := hset 0 (by omega)
      simpa using this
    show (if i = 5 then _ else if b &&& 0x80 ≠ 0 then _ else _) = _
    rw [if_neg hi, if_pos hb]
    have ih := varintGo_ok k rest ((v ||| (b &&& 0x7F) <<< bp) % 2 ^ 32)
      (bp + 7) (i + 1) (by omega) (by simpa using hlen)
      (fun j hj => by simpa using hset (j + 1) (by omega))
      (by simpa using hclr)
    rw [ih]
    have hOr : bigOr (fun j => ((b :: rest).getD j 0 &&& 0x7F) <<< (bp + 7 * j)) (k + 2)
        = (b &&& 0x7F) <<< bp |||
          bigOr (fun j => (rest.getD j 0 &&& 0x7F) <<< (bp + 7 + 7 * j)) (k + 1) := by
      rw [bigOr_succ_head]
      have heq : ∀ j, j < k + 1 →
          ((b :: rest).getD (j + 1) 0 &&& 0x7F) <<< (bp + 7 * (j + 1))
            = (rest.getD j 0 &&& 0x7F) <<< (bp + 7 + 7 * j) := by
        intro j hj
        have harith : bp + 7 * (j + 1) = bp + 7 + 7 * j := by omega
        simp [harith]
      rw [bigOr_congr (k + 1) heq]
      simp
    rw [hOr, lor_mod_two_pow_left, Nat.lor_assoc]
    simp [List.drop]

lemma varintGo_err : ∀ (buf : List Nat) (v bp i : Nat), i ≤ 5 →
    (∀ j, j < 5 - i → j < buf.length → buf.getD j 0 &&& 0x80 ≠ 0) →
    ∃ c, varintGo v bp i buf = (.error .InvalidVarInt, c)
  | [], v, bp, i, hi, hset => ⟨[], rfl⟩
  | b :: rest, v, bp, i, hi, hset => by
    by_cases h5 : i = 5
    · refine ⟨b :: rest, ?_⟩
      show (if i = 5 then _ else _) = _
      rw [if_pos h5]
    · have hb : b &&& 0x80 ≠ 0 := by
        have := hset 0 (by omega) (by simp)
        simpa using this
      have ih := varintGo_err rest ((v ||| (b &&& 0x7F) <<< bp) % 2 ^ 32)
        (bp + 7) (i + 1) (by omega)
        (fun j hj hlen => by
          have := hset (j + 1) (by omega) (by simp ; omega)
          simpa using this)
      obtain ⟨c, hc⟩ := ih
      refine ⟨c, ?_⟩
      show (if i = 5 then _ else if b &&& 0x80 ≠ 0 then _ else _) = _
      rw [if_neg h5, if_pos hb]
      exact hc

lemma varintGo_err_kind : ∀ (buf : List Nat) (v bp i : Nat)
    (e : MinecraftParseError) (c : List Nat),
    varintGo v bp i buf = (.error e, c) → e = .InvalidVarInt
  | [], v, bp, i, e, c => by
    intro h
    simp only [varintGo, Prod.mk.injEq, Except.error.injEq] at h
    exact h.1.symm
  | b :: rest, v, bp, i, e, c => by
    intro h
    rw [show varintGo v bp i (b :: rest)
        = (if i = 5 then (.error .InvalidVarInt, b :: rest)
           else if b &&& 0x80 ≠ 0 then
             varintGo ((v ||| (b &&& 0x7F) <<< bp) % 2 ^ 32) (bp + 7) (i + 1) rest
           else (.ok (toI32 ((v ||| (b &&& 0x7F) <<< bp) % 2 ^ 32)), rest))
      from rfl] at h
    by_cases h5 : i = 5
    · rw [if_pos h5] at h
      simp only [Prod.mk.injEq, Except.error.injEq] at h
      exact h.1.symm
    · rw [if_neg h5] at h
      by_cases hb : b &&& 0x80 ≠ 0
      · rw [if_pos hb] at h
        exact varintGo_err_kind rest _ _ _ e c h
      · rw [if_neg hb] at h
        simp at h

lemma varintGo_suffix : ∀ (buf : List Nat) (v bp i : Nat),
    (varintGo v bp i buf).2 <:+ buf
  | [], v, bp, i => List.suffix_refl []
  | b :: rest, v, bp, i => by
    rw [show varintGo v bp i (b :: rest)
        = (if i = 5 then (.error .InvalidVarInt, b :: rest)
           else if b &&& 0x80 ≠ 0 then
             varintGo ((v ||| (b &&& 0x7F) <<< bp) % 2 ^ 32) (bp + 7) (i + 1) rest
           else (.ok (toI32 ((v ||| (b &&& 0x7F) <<< bp) % 2 ^ 32)), rest))
      from rfl]
    by_cases h5 : i = 5
    · rw [if_pos h5]
    · rw [if_neg h5]
      by_cases hb : b &&& 0x80 ≠ 0
      · rw [if_pos hb]
        exact (varintGo_suffix rest _ _ _).trans (List.drop_suffix 1 (b :: rest))
      · rw [if_neg hb]
        exact List.drop_suffix 1 (b :: rest)

lemma varintGo_ok_val : ∀ (buf : List Nat) (v bp i : Nat) (L : Int) (c : List Nat),
    varintGo v bp i buf = (.ok L, c) → ∃ m, L = toI32 m
  | [], v, bp, i, L, c => by
    intro h
    simp only [varintGo, Prod.mk.injEq] at h
    exact absurd h.1 (by simp)
  | b :: rest, v, bp, i, L, c => by
    intro h
    rw [show varintGo v bp i (b :: rest)
        = (if i = 5 then (.error .InvalidVarInt, b :: rest)
           else if b &&& 0x80 ≠ 0 then
             varintGo ((v ||| (b &&& 0x7F) <<< bp) % 2 ^ 32) (bp + 7) (i + 1) rest
           else (.ok (toI32 ((v ||| (b &&& 0x7F) <<< bp) % 2 ^ 32)), rest))
      from rfl] at h
    by_cases h5 : i = 5
    · rw [if_pos h5] at h
      exact absurd (congrArg Prod.fst h) (by simp)
    · rw [if_neg h5] at h
      by_cases hb : b &&& 0x80 ≠ 0
      · rw [if_pos hb] at h
        exact varintGo_ok_val rest _ _ _ L c h
      · rw [if_neg hb] at h
        exact ⟨(v ||| (b &&& 0x7F) <<< bp) % 2 ^ 32,
          by simpa using (congrArg Prod.fst h).symm⟩

lemma parse_varint_ok (buf : List Nat) (k : Nat)
    (h5 : k < 5) (hlen : k < buf.length)
    (hset : ∀ j, j < k → buf.getD j 0 &&& 0x80 ≠ 0)
    (hclr : buf.getD k 0 &&& 0x80 = 0) :
    parse_varint buf = (.ok (toI32 (varintSpecBits buf k)), buf.drop (k + 1)) := by
  have h := varintGo_ok k buf 0 0 0 (by omega) hlen hset hclr
  rw [parse_varint, h, Nat.zero_or,
    bigOr_congr (k + 1) (fun j hj => by rw [Nat.zero_add]), toI32_mod]
  rfl

lemma parse_varint_err (buf : List Nat)
    (hset : ∀ j, j < 5 → j < buf.length → buf.getD j 0 &&& 0x80 ≠ 0) :
    ∃ c, parse_varint buf = (.error .InvalidVarInt, c) :=
  varintGo_err buf 0 0 0 (by omega) (fun j hj => hset j (by omega))

lemma parse_varint_err_kind (buf : List Nat) (e : MinecraftParseError)
    (c : List Nat) (h : parse_varint buf = (.error e, c)) :
    e = .InvalidVarInt :=
  varintGo_err_kind buf 0 0 0 e c h

lemma parse_varint_err_iff (buf : List Nat) :
    (∃ c, parse_varint buf = (.error .InvalidVarInt, c)) ↔
      (∀ j, j < 5 → j < buf.length → buf.getD j 0 &&& 0x80 ≠ 0) := by
  constructor
  · rintro ⟨c, hc⟩
    by_contra hno
    push_neg at hno
    have hex : ∃ j, j < 5 ∧ j < buf.length ∧ buf.getD j 0 &&& 0x80 = 0 := by
      obtain ⟨j, hj1, hj2, hj3⟩ := hno
      exact ⟨j, hj1, hj2, by simpa using hj3⟩
    have hk := Nat.find_spec hex
    have hok := parse_varint_ok buf (Nat.find hex) hk.1 hk.2.1
      (fun j hj => by
        have hnp := Nat.find_min hex hj
        simp only [not_and] at hnp
        intro hz
        exact (hnp (by omega) (by omega)) hz)
      hk.2.2
    rw [hok] at hc
    simp at hc
  · intro hset
    exact parse_varint_err buf hset

lemma parse_varint_range (buf : List Nat) (L : Int) (c : List Nat)
    (h : parse_varint buf = (.ok L, c)) : -2 ^ 31 ≤ L ∧ L < 2 ^ 31 := by
  obtain ⟨m, hm⟩ := varintGo_ok_val buf 0 0 0 L c h
  rw [hm]
  exact toI32_range m

lemma parse_varint_suffix (buf : List Nat) : (parse_varint buf).2 <:+ buf :=
  varintGo_suffix buf 0 0 0

lemma parse_ushort_suffix (buf : List Nat) : (parse_ushort buf).2 <:+ buf := by
  unfold parse_ushort
  split
  · exact List.suffix_refl buf
  · exact List.drop_suffix 2 buf

lemma parse_string_n_suffix (buf : List Nat) : (parse_string_n buf).2 <:+ buf := by
  unfold parse_string_n
  rcases hv : parse_varint buf with ⟨r, c⟩
  have hc : c <:+ buf := by
    have := parse_varint_suffix buf
    rwa [hv] at this
  cases r with
  | error e => simpa using hc
  | ok len =>
    simp only []
    split
    · simpa using hc
    · split <;> simpa using (List.drop_suffix (usizeOfI32 len) c).trans hc

lemma parse_handshake_suffix (buf : List Nat) :
    (parse_handshake buf).2 <:+ buf := by
  unfold parse_handshake
  rcases hv : parse_varint buf with ⟨r, b1⟩
  have hb1 : b1 <:+ buf := by
    have := parse_varint_suffix buf
    rwa [hv] at this
  cases r with
  | error e => simpa using hb1
  | ok len =>
    simp only []
    split
    · simpa using hb1
    · rcases hv2 : parse_varint b1 with ⟨r2, b2⟩
      have hb2 : b2 <:+ buf := by
        have := parse_varint_suffix b1
        rw [hv2] at this
        exact this.trans hb1
      cases r2 with
      | error e => simpa using hb2
      | ok id =>
        simp only []
        split
        · simpa using hb2
        · rcases hv3 : parse_varint b2 with ⟨r3, b3⟩
          have hb3 : b3 <:+ buf := by
            have := parse_varint_suffix b2
            rw [hv3] at this
            exact this.trans hb2
          cases r3 with
          | error e => simpa using hb3
          | ok version =>
            simp only []
            rcases hs : parse_string_n b3 with ⟨r4, b4⟩
            have hb4 : b4 <:+ buf := by
              have := parse_string_n_suffix b3
              rw [hs] at this
              exact this.trans hb3
            cases r4 with
            | error e => simpa using hb4
            | ok address =>
              simp only []
              rcases hu : parse_ushort b4 with ⟨r5, b5⟩
              have hb5 : b5 <:+ buf := by
                have := parse_ushort_suffix b4
                rw [hu] at this
                exact this.trans hb4
              cases r5 with
              | error e => simpa using hb5
              | ok port =>
                simp only []
                rcases hv6 : parse_varint b5 with ⟨r6, b6⟩
                have hb6 : b6 <:+ buf := by
                  have := parse_varint_suffix b5
                  rw [hv6] at this
                  exact this.trans hb5
                cases r6 <;> simpa using hb6

lemma varintGo_step (v bp i b : Nat) (rest : List Nat)
    (hi : ¬ i = 5) (hb : b &&& 0x80 ≠ 0) :
    varintGo v bp i (b :: rest)
      = varintGo ((v ||| (b &&& 0x7F) <<< bp) % 2 ^ 32) (bp + 7) (i + 1) rest := by
  show (if i = 5 then _ else if b &&& 0x80 ≠ 0 then _ else _) = _
  rw [if_neg hi, if_pos hb]

lemma varintGo_last (v bp i b : Nat) (rest : List Nat)
    (hi : ¬ i = 5) (hb : b &&& 0x80 = 0) :
    varintGo v bp i (b :: rest)
      = (.ok (toI32 ((v ||| (b &&& 0x7F) <<< bp) % 2 ^ 32)), rest) := by
  show (if i = 5 then _ else if b &&& 0x80 ≠ 0 then _ else _) = _
  rw [if_neg hi, if_neg (by simpa using hb)]

lemma varintGo_five (v bp : Nat) (buf : List Nat) :
    varintGo v bp 5 buf = (.error .InvalidVarInt, buf) := by
  cases buf with
  | nil => rfl
  | cons b rest =>
    show (if (5 : Nat) = 5 then _ else _) = _
    rw [if_pos rfl]

lemma varintGo_append_ok : ∀ (p : List Nat) (v bp i : Nat) (L : Int) (R : List Nat),
    varintGo v bp i p = (.ok L, []) → varintGo v bp i (p ++ R) = (.ok L, R)
  | [], v, bp, i, L, R => by
    intro h
    exact absurd (congrArg Prod.fst h) (by simp [varintGo])
  | b :: rest, v, bp, i, L, R => by
    intro h
    by_cases h5 : i = 5
    · rw [h5, varintGo_five] at h
      exact absurd (congrArg Prod.fst h) (by simp)
    · by_cases hb : b &&& 0x80 ≠ 0
      · rw [varintGo_step v bp i b rest h5 hb] at h
        rw [List.cons_append, varintGo_step v bp i b (rest ++ R) h5 hb]
        exact varintGo_append_ok rest _ _ _ L R h
      · have hb0 : b &&& 0x80 = 0 := by simpa using hb
        rw [varintGo_last v bp i b rest h5 hb0] at h
        have hL : (Except.ok (toI32 ((v ||| (b &&& 0x7F) <<< bp) % 2 ^ 32))
            : Except MinecraftParseError Int) = .ok L := congrArg Prod.fst h
        have hrest : rest = [] := congrArg Prod.snd h
        rw [List.cons_append, varintGo_last v bp i b (rest ++ R) h5 hb0, hrest]
        simpa using hL

lemma parse_varint_append_ok (p : List Nat) (L : Int) (R : List Nat)
    (h : parse_varint p = (.ok L, [])) : parse_varint (p ++ R) = (.ok L, R) :=
  varintGo_append_ok p 0 0 0 L R h

lemma lor_mod_two_pow_right (a b n : Nat) :
    (a ||| b % 2 ^ n) % 2 ^ n = (a ||| b) % 2 ^ n := by
  rw [Nat.lor_comm a, lor_mod_two_pow_left, Nat.lor_comm]

lemma shiftLeft28_mod (x : Nat) : x <<< 28 % 2 ^ 32 = (x % 2 ^ 4) <<< 28 := by
  rw [Nat.shiftLeft_eq, Nat.shiftLeft_eq,
    show (2 : Nat) ^ 32 = 2 ^ 4 * 2 ^ 28 by norm_num, Nat.mul_mod_mul_right]

lemma and127_mod16 (b : Nat) : (b &&& 0x7F) % 2 ^ 4 = b &&& 0x0F := by
  rw [show (0x7F : Nat) = 2 ^ 7 - 1 by norm_num, show (0x0F : Nat) = 2 ^ 4 - 1 by norm_num,
    Nat.and_pow_two_sub_one_eq_mod, Nat.and_pow_two_sub_one_eq_mod,
    Nat.mod_mod_of_dvd b (by norm_num : (2 : Nat) ^ 4 ∣ 2 ^ 7)]

lemma utf8Loop_replicate_ascii : ∀ (fuel n pos : Nat), n ≤ fuel →
    utf8Loop fuel (List.replicate n 0x61) pos = .ok (List.replicate n 0x61)
  | fuel, 0, pos, h => by rw [List.replicate_zero] ; cases fuel <;> rfl
  | fuel + 1, n + 1, pos, h => by
    rw [List.replicate_succ]
    have hchar : utf8DecodeChar (0x61 :: List.replicate n 0x61) = .ok (0x61, 1) := rfl
    simp only [utf8Loop, hchar]
    rw [show List.drop (1 - 1) (List.replicate n 0x61) = List.replicate n 0x61 from rfl,
      utf8Loop_replicate_ascii fuel n (pos + 1) (by omega)]

lemma utf8Decode_replicate_ascii (n : Nat) :
    utf8Decode (List.replicate n 0x61) = .ok (List.replicate n 0x61) := by
  rw [utf8Decode, List.length_replicate]
  exact utf8Loop_replicate_ascii n n 0 (le_refl n)

/-- Claim C1: the 20-byte packet `13 00 f2 05 0c 31 32 33 2e 34 35 2e 36 37
2e 38 39 63 dd 02` decodes to a Handshake with protocol_version 754, address
"123.45.67.89" (code points 49,50,51,46,52,53,46,54,55,46,56,57), port
25565 and next_state 2. -/
theorem claim_C1_good_packet :
    parse_handshake [0x13, 0x00, 0xf2, 0x05, 0x0c, 0x31, 0x32, 0x33, 0x2e,
        0x34, 0x35, 0x2e, 0x36, 0x37, 0x2e, 0x38, 0x39, 0x63, 0xdd, 0x02]
      = (.ok ⟨754, [49, 50, 51, 46, 52, 53, 46, 54, 55, 46, 56, 57], 25565, 2⟩,
          []) := by
  decide

/-- Claim C2: parse_handshake is total — on every byte sequence it returns
either a Handshake or an error of the `MinecraftParseError` enumeration, and
the cursor it leaves behind is a suffix of the input, so no byte outside the
buffer is ever read. -/
theorem claim_C2_total_no_overread (buf : List Nat) :
    ((∃ hs rest, parse_handshake buf = (.ok hs, rest)) ∨
      (∃ e rest, parse_handshake buf = (.error e, rest))) ∧
    (parse_handshake buf).2 <:+ buf := by
  constructor
  · rcases hr : parse_handshake buf with ⟨r, rest⟩
    cases r with
    | ok hs => exact Or.inl ⟨hs, rest, rfl⟩
    | error e => exact Or.inr ⟨e, rest, rfl⟩
  · exact parse_handshake_suffix buf

/-- Claim C3: whenever some byte among the first five (and within the
buffer) has a clear high bit, parse_varint succeeds, stops right after the
first such byte (index `k`), and returns the 32-bit signed integer assembled
by OR-ing each consumed byte's low 7 bits shifted left by 7 times its index;
in particular `16` decodes to 22, `00` to 0, `f2 05` to 754, and the
non-minimal encoding `80 00` also decodes (to 0). -/
theorem claim_C3_varint_value :
    (∀ (buf : List Nat) (k : Nat), k < 5 → k < buf.length →
      (∀ j, j < k → buf.getD j 0 &&& 0x80 ≠ 0) →
      buf.getD k 0 &&& 0x80 = 0 →
      parse_varint buf = (.ok (toI32 (varintSpecBits buf k)), buf.drop (k + 1))) ∧
    parse_varint [0x16] = (.ok 22, []) ∧
    parse_varint [0x00] = (.ok 0, []) ∧
    parse_varint [0xf2, 0x05] = (.ok 754, []) ∧
    parse_varint [0x80, 0x00] = (.ok 0, []) := by
  refine ⟨fun buf k h1 h2 h3 h4 => parse_varint_ok buf k h1 h2 h3 h4,
    by decide, by decide, by decide, by decide⟩

theorem claim_C3_witness :
    parse_varint [0xf2, 0x05] = (.ok 754, []) := by
  have h := claim_C3_varint_value.1 [0xf2, 0x05] 1 (by decide) (by decide)
    (by decide) (by decide)
  rw [h]
  decide

/-- Claim C4: parse_varint fails exactly when every byte among the first
five that exists in the buffer has its continuation bit set (which covers
the empty input, truncation before a terminating byte, and five consumed
bytes with continuation still signalled), and the only error kind it ever
produces is InvalidVarInt. -/
theorem claim_C4_varint_failure (buf : List Nat) :
    (∀ e c, parse_varint buf = (.error e, c) → e = .InvalidVarInt) ∧
    ((∃ c, parse_varint buf = (.error .InvalidVarInt, c)) ↔
      ∀ j, j < 5 → j < buf.length → buf.getD j 0 &&& 0x80 ≠ 0) :=
  ⟨fun e c h => parse_varint_err_kind buf e c h, parse_varint_err_iff buf⟩

theorem claim_C4_witness :
    (parse_varint [0xf3, 0xf3, 0xf3, 0xf3, 0xf3, 0x05]).1
      = .error .InvalidVarInt := by
  obtain ⟨c, hc⟩ := (claim_C4_varint_failure [0xf3, 0xf3, 0xf3, 0xf3, 0xf3, 0x05]).2.mpr
    (by decide)
  rw [hc]

/-- Claim C5: in parse_handshake, once the outer length VarInt decodes to
`len` leaving cursor `b1`, the parse fails with LengthNotMatch whenever the
remaining byte count differs from the declared length — as the code compares
it, `b1.length ≠ len as usize`, and for the non-negative lengths a VarInt
can declare, equivalently `(b1.length : Int) ≠ len`. The check is strict
equality, so trailing extra bytes fail even when every later field would
decode cleanly. -/
theorem claim_C5_length_mismatch (buf b1 : List Nat) (len : Int)
    (h : parse_varint buf = (.ok len, b1)) :
    (b1.length ≠ usizeOfI32 len →
      parse_handshake buf = (.error .LengthNotMatch, b1)) ∧
    (0 ≤ len → (b1.length : Int) ≠ len →
      parse_handshake buf = (.error .LengthNotMatch, b1)) := by
  have hmain : b1.length ≠ usizeOfI32 len →
      parse_handshake buf = (.error .LengthNotMatch, b1) := by
    intro hne
    simp only [parse_handshake, h]
    rw [if_pos hne]
  refine ⟨hmain, fun hnn hint => hmain ?_⟩
  have hrange := parse_varint_range buf len b1 h
  rw [usizeOfI32_nonneg hnn hrange.2]
  omega

theorem claim_C5_witness :
    parse_handshake [0x13, 0x00, 0xf2, 0x05, 0x0c, 0x31, 0x32, 0x33, 0x2e,
        0x34, 0x35, 0x2e, 0x36, 0x37, 0x2e, 0x38, 0x39, 0x63, 0xdd, 0x02, 0x00]
      = (.error .LengthNotMatch,
          [0x00, 0xf2, 0x05, 0x0c, 0x31, 0x32, 0x33, 0x2e, 0x34, 0x35, 0x2e,
            0x36, 0x37, 0x2e, 0x38, 0x39, 0x63, 0xdd, 0x02, 0x00]) :=
  (claim_C5_length_mismatch _ _ 19 (by decide)).1 (by decide)

/-- Claim C6: parse_string_n's behaviour is exactly this case analysis: a
failing length prefix propagates its InvalidVarInt error unchanged; for a
non-negative declared length n, fewer than n remaining bytes fail with
StringTooShort at the cursor position right after the prefix; otherwise
exactly n bytes are consumed, failing with InvalidStringEncoding (wrapping
the UTF-8 decode failure) when they are not valid UTF-8 and returning the
decoded text on success. -/
theorem claim_C6_string_cases (buf : List Nat) :
    (∀ e c, parse_varint buf = (.error e, c) →
      parse_string_n buf = (.error e, c) ∧ e = .InvalidVarInt) ∧
    (∀ (len : Int) (b2 : List Nat), parse_varint buf = (.ok len, b2) → 0 ≤ len →
      (b2.length < len.toNat → parse_string_n buf = (.error .StringTooShort, b2)) ∧
      (len.toNat ≤ b2.length →
        (∀ e, utf8Decode (b2.take len.toNat) = .error e →
          parse_string_n buf = (.error (.InvalidStringEncoding e), b2.drop len.toNat)) ∧
        (∀ s, utf8Decode (b2.take len.toNat) = .ok s →
          parse_string_n buf = (.ok s, b2.drop len.toNat)))) := by
  constructor
  · intro e c h
    refine ⟨?_, parse_varint_err_kind buf e c h⟩
    simp only [parse_string_n, h]
  · intro len b2 h hnn
    have hrange := parse_varint_range buf len b2 h
    have hu : usizeOfI32 len = len.toNat := usizeOfI32_nonneg hnn hrange.2
    constructor
    · intro hlt
      simp only [parse_string_n, h, hu]
      rw [if_pos hlt]
    · intro hge
      constructor
      · intro e he
        simp only [parse_string_n, h, hu, he]
        rw [if_neg (by omega)]
      · intro s hs
        simp only [parse_string_n, h, hu, hs]
        rw [if_neg (by omega)]

theorem claim_C6_witness :
    parse_string_n [0x03, 0x31, 0x36] = (.error .StringTooShort, [0x31, 0x36]) :=
  ((claim_C6_string_cases [0x03, 0x31, 0x36]).2 3 [0x31, 0x36]
    (by decide) (by decide)).1 (by decide)

/-- Claim C7, counterexample: the claim asserts parse_string_n rejects every
buffer whose length prefix decodes to a negative VarInt through an explicit
negative-length check. The code instead casts the VarInt with `as usize` and
compares with the remaining byte count: on a buffer that declares length
-2^31 (bytes `80 80 80 80 08`) followed by 2^64 - 2^31 bytes of `a`, the
cast value equals the remaining count and the parse succeeds, so no input
with a negative declared length is categorically rejected. -/
theorem claim_C7_counterexample :
    parse_varint ([0x80, 0x80, 0x80, 0x80, 0x08] ++
        List.replicate (2 ^ 64 - 2 ^ 31) 0x61)
      = (.ok (-(2 ^ 31)), List.replicate (2 ^ 64 - 2 ^ 31) 0x61) ∧
    (-(2 ^ 31) : Int) < 0 ∧
    parse_string_n ([0x80, 0x80, 0x80, 0x80, 0x08] ++
        List.replicate (2 ^ 64 - 2 ^ 31) 0x61)
      = (.ok (List.replicate (2 ^ 64 - 2 ^ 31) 0x61), []) := by
  have hv : parse_varint [0x80, 0x80, 0x80, 0x80, 0x08]
      = (.ok (-(2 ^ 31)), []) := by decide
  have hva := parse_varint_append_ok _ _
    (List.replicate (2 ^ 64 - 2 ^ 31) 0x61) hv
  refine ⟨hva, by norm_num, ?_⟩
  have hu : usizeOfI32 (-(2 ^ 31)) = 2 ^ 64 - 2 ^ 31 := by decide
  have hlen : ¬ ((List.replicate (2 ^ 64 - 2 ^ 31) (0x61 : Nat)).length
      < 2 ^ 64 - 2 ^ 31) := by
    rw [List.length_replicate]
    exact lt_irrefl _
  have htake : (List.replicate (2 ^ 64 - 2 ^ 31) (0x61 : Nat)).take
      (2 ^ 64 - 2 ^ 31) = List.replicate (2 ^ 64 - 2 ^ 31) 0x61 := by
    rw [List.take_replicate, Nat.min_self]
  have hdrop : (List.replicate (2 ^ 64 - 2 ^ 31) (0x61 : Nat)).drop
      (2 ^ 64 - 2 ^ 31) = [] := by
    rw [List.drop_replicate, Nat.sub_self, List.replicate_zero]
  simp only [parse_string_n, hva, hu, hlen, if_false, htake,
    utf8Decode_replicate_ascii, hdrop]

/-- Claim C7, amended: parse_string_n has no explicit negative-length
validation step; it relies on the `as usize` cast, under which a negative
declared length becomes at least 2^64 - 2^31, so every buffer with fewer
than 2^64 - 2^31 bytes remaining after the prefix (every buffer a real
machine can hold) is rejected with StringTooShort. -/
theorem claim_C7_amended (buf b2 : List Nat) (len : Int)
    (hv : parse_varint buf = (.ok len, b2)) (hneg : len < 0)
    (hsize : b2.length < 2 ^ 64 - 2 ^ 31) :
    parse_string_n buf = (.error .StringTooShort, b2) := by
  have hrange := parse_varint_range buf len b2 hv
  have hbig := usizeOfI32_neg hrange.1 hneg
  simp only [parse_string_n, hv]
  rw [if_pos (by omega)]

theorem claim_C7_witness :
    parse_string_n [0xff, 0xff, 0xff, 0xff, 0x0f]
      = (.error .StringTooShort, []) :=
  claim_C7_amended [0xff, 0xff, 0xff, 0xff, 0x0f] [] (-1)
    (by decide) (by decide) (by decide)

/-- Claim C8: parse_ushort is all-or-nothing — with fewer than 2 bytes
(including the empty buffer) it fails with InvalidUShort leaving the cursor
unchanged; with at least 2 bytes it returns the first two interpreted as a
big-endian unsigned 16-bit value and advances the cursor by exactly 2; in
particular `63 dd` decodes to 25565. -/
theorem claim_C8_ushort (buf : List Nat) :
    (buf.length < 2 → parse_ushort buf = (.error .InvalidUShort, buf)) ∧
    (∀ b0 b1 rest, buf = b0 :: b1 :: rest → b0 < 256 → b1 < 256 →
      parse_ushort buf = (.ok (b0 * 256 + b1), rest) ∧ b0 * 256 + b1 < 2 ^ 16) ∧
    parse_ushort [0x63, 0xdd] = (.ok 25565, []) := by
  refine ⟨?_, ?_, by decide⟩
  · intro hlt
    unfold parse_ushort
    rw [if_pos hlt]
  · rintro b0 b1 rest rfl hb0 hb1
    refine ⟨?_, by omega⟩
    unfold parse_ushort
    rw [if_neg (by simp)]
    simp

theorem claim_C8_witness :
    parse_ushort [0x63, 0xdd] = (.ok (0x63 * 256 + 0xdd), []) ∧
    0x63 * 256 + 0xdd < 2 ^ 16 :=
  (claim_C8_ushort [0x63, 0xdd]).2.1 0x63 0xdd [] rfl (by decide) (by decide)

/-- Claim C9: parse_handshake is deterministic — two runs over the same
byte sequence from independent cursors produce identical results, values
and error kinds included. -/
theorem claim_C9_deterministic (buf1 buf2 : List Nat) (h : buf1 = buf2) :
    parse_handshake buf1 = parse_handshake buf2 := by
  rw [h]

theorem claim_C9_witness :
    parse_handshake [0x13, 0x00, 0xf2, 0x05, 0x0c, 0x31, 0x32, 0x33, 0x2e,
        0x34, 0x35, 0x2e, 0x36, 0x37, 0x2e, 0x38, 0x39, 0x63, 0xdd, 0x02]
      = parse_handshake [0x13, 0x00, 0xf2, 0x05, 0x0c, 0x31, 0x32, 0x33, 0x2e,
        0x34, 0x35, 0x2e, 0x36, 0x37, 0x2e, 0x38, 0x39, 0x63, 0xdd, 0x02] :=
  claim_C9_deterministic _ _ rfl

/-- Claim C10: on a 5-byte VarInt encoding only the low 4 data bits of the
5th byte reach the 32-bit result — its 7-bit group is shifted by 28, so two
inputs whose 5th bytes agree on bits 0-3 and on the continuation bit (and
may differ on bits 4-6) parse identically. -/
theorem claim_C10_fifth_byte_truncation (b0 b1 b2 b3 b4 b4' : Nat)
    (rest : List Nat)
    (h0 : b0 &&& 0x80 ≠ 0) (h1 : b1 &&& 0x80 ≠ 0)
    (h2 : b2 &&& 0x80 ≠ 0) (h3 : b3 &&& 0x80 ≠ 0)
    (hlow : b4 &&& 0x0F = b4' &&& 0x0F) (hcont : b4 &&& 0x80 = b4' &&& 0x80) :
    parse_varint (b0 :: b1 :: b2 :: b3 :: b4 :: rest)
      = parse_varint (b0 :: b1 :: b2 :: b3 :: b4' :: rest) := by
  unfold parse_varint
  rw [varintGo_step 0 0 0 b0 (b1 :: b2 :: b3 :: b4 :: rest) (by omega) h0,
      varintGo_step 0 0 0 b0 (b1 :: b2 :: b3 :: b4' :: rest) (by omega) h0,
      varintGo_step _ _ 1 b1 (b2 :: b3 :: b4 :: rest) (by omega) h1,
      varintGo_step _ _ 1 b1 (b2 :: b3 :: b4' :: rest) (by omega) h1,
      varintGo_step _ _ 2 b2 (b3 :: b4 :: rest) (by omega) h2,
      varintGo_step _ _ 2 b2 (b3 :: b4' :: rest) (by omega) h2,
      varintGo_step _ _ 3 b3 (b4 :: rest) (by omega) h3,
      varintGo_step _ _ 3 b3 (b4' :: rest) (by omega) h3]
  by_cases hb : b4 &&& 0x80 ≠ 0
  · have hb' : b4' &&& 0x80 ≠ 0 := by rw [← hcont] ; exact hb
    rw [varintGo_step _ _ 4 b4 rest (by omega) hb,
        varintGo_step _ _ 4 b4' rest (by omega) hb',
        varintGo_five, varintGo_five]
  · have hb0 : b4 &&& 0x80 = 0 := by simpa using hb
    have hb0' : b4' &&& 0x80 = 0 := by rw [← hcont] ; exact hb0
    rw [varintGo_last _ _ 4 b4 rest (by omega) hb0,
        varintGo_last _ _ 4 b4' rest (by omega) hb0']
    have key : ∀ V : Nat, (V ||| (b4 &&& 0x7F) <<< 28) % 2 ^ 32
        = (V ||| (b4' &&& 0x7F) <<< 28) % 2 ^ 32 := by
      intro V
      rw [← lor_mod_two_pow_right V ((b4 &&& 0x7F) <<< 28) 32,
          ← lor_mod_two_pow_right V ((b4' &&& 0x7F) <<< 28) 32,
          shiftLeft28_mod, shiftLeft28_mod, and127_mod16, and127_mod16, hlow]
    rw [show (0 : Nat) + 7 + 7 + 7 + 7 = 28 from rfl, key]

theorem claim_C10_witness :
    parse_varint [0x80, 0x80, 0x80, 0x80, 0x01]
      = parse_varint [0x80, 0x80, 0x80, 0x80, 0x71] :=
  claim_C10_fifth_byte_truncation 0x80 0x80 0x80 0x80 0x01 0x71 []
    (by decide) (by decide) (by decide) (by decide) (by decide) (by decide)
